import Mathlib

/-!
Verification of the KakaoTalk chat-export parser (`src/scripts/parser.js`).

Strings are modelled as `List Char` (the decoded Unicode code points of a
JavaScript string).  Each JavaScript string operation used by the parser
(`trim`, `includes`, `startsWith`, `replace` with a string pattern, `split`)
is embedded as a function on `List Char`, and the two regular expressions the
parser uses are embedded as deterministic matchers that follow the
backtracking behaviour of the JavaScript regex engine on those particular
patterns.
-/

namespace KakaoViewer

/-- JavaScript whitespace as relevant here (`\s` and `trim`), restricted to
the ASCII whitespace characters that can occur in a line of a text export. -/
def isWs (c : Char) : Bool :=
  c = ' ' || c = '\t' || c = '\n' || c = '\r' || c = Char.ofNat 11 || c = Char.ofNat 12

/-- Embeds the JavaScript string method trim: drop whitespace from both ends. -/
def jsTrim (l : List Char) : List Char :=
  ((l.dropWhile isWs).reverse.dropWhile isWs).reverse

/-- Embeds the JavaScript string method includes: `sub` occurs as a contiguous
substring. -/
def strIncludes (sub : List Char) : List Char → Bool
  | [] => sub.isEmpty
  | c :: rest => sub.isPrefixOf (c :: rest) || strIncludes sub rest

/-- Embeds the JavaScript string method replace with a string pattern: replace
the first occurrence of `pat` (if any) by `repl`. -/
def replaceFirst (pat repl : List Char) : List Char → List Char
  | [] => if pat.isEmpty then repl else []
  | c :: rest =>
    if pat.isPrefixOf (c :: rest) then repl ++ (c :: rest).drop pat.length
    else c :: replaceFirst pat repl rest

/-- Embeds the split of the content on the newline character into physical
lines (keeping empty pieces). -/
def splitNl : List Char → List (List Char)
  | [] => [[]]
  | c :: rest =>
    if c = '\n' then [] :: splitNl rest
    else
      match splitNl rest with
      | [] => [[c]]
      | l :: ls => (c :: l) :: ls

def isDigit (c : Char) : Bool := '0' ≤ c && c ≤ '9'

/-- ASCII lowercasing, for the case-insensitive (`/i`) extension regex. -/
def toLowerCh (c : Char) : Char :=
  if 'A' ≤ c ∧ c ≤ 'Z' then Char.ofNat (c.toNat + 32) else c

/-- The document/archive extensions of the file regex
`/\.(pdf|doc|docx|xls|xlsx|ppt|pptx|txt|zip|rar)$/i`. -/
def docExts : List (List Char) :=
  ["pdf", "doc", "docx", "xls", "xlsx", "ppt", "pptx", "txt", "zip", "rar"].map (·.data)

/-- Truthiness of `content.match(/\.(pdf|...)$/i)`: the content, lowercased,
ends in a dot followed by one of the listed extensions. -/
def endsWithDocExt (content : List Char) : Bool :=
  docExts.any (fun e => ('.' :: e).isSuffixOf (content.map toLowerCh))

/-- The message kinds returned by `detectMessageType`. -/
inductive MsgKind where
  | text | media | emoticon | link | file | voice | system | empty
deriving DecidableEq, Repr

/-- Embeds `KakaoTalkParser.detectMessageType`, checks in source order. -/
def detectMessageType (content : List Char) : MsgKind :=
  if content = [] then .empty
  else if content = "사진".data ∨ content = "동영상".data ∨ content = "사진 여러 장".data then
    .media
  else if content = "이모티콘".data ∨ ("이모티콘:".data).isPrefixOf content = true then
    .emoticon
  else if strIncludes "http://".data content = true ∨ strIncludes "https://".data content = true then
    .link
  else if strIncludes "파일:".data content = true ∨ endsWithDocExt content = true then
    .file
  else if content = "음성메시지".data ∨ strIncludes "음성메시지".data content = true then
    .voice
  else if strIncludes "님이 들어왔습니다".data content = true ∨
          strIncludes "님이 나갔습니다".data content = true ∨
          strIncludes "대화방을 개설했습니다".data content = true then
    .system
  else .text

/-- Matches one or two digits followed by the literal `mark`, with the regex
engine backtracking behaviour: two digits are tried first, then one. Returns
the digit group and the rest of the input. -/
def digitsThenMark (mark : Char) (l : List Char) : Option (List Char × List Char) :=
  match l with
  | a :: b :: c :: rest =>
    if isDigit a && isDigit b && (c = mark) then some ([a, b], rest)
    else if isDigit a && (b = mark) then some ([a], c :: rest)
    else none
  | [a, b] => if isDigit a && (b = mark) then some ([a], []) else none
  | _ => none

/-- Match `(\d{4})년\s*(\d{1,2})월\s*(\d{1,2})일\s*(\S+)` anchored at the
start of `l`; returns the four captured groups. -/
def matchDateAt (l : List Char) : Option (List Char × List Char × List Char × List Char) :=
  match l with
  | a :: b :: c :: d :: e :: r1 =>
    if isDigit a && isDigit b && isDigit c && isDigit d && (e = '년') then
      match digitsThenMark '월' (r1.dropWhile isWs) with
      | some (mo, r2) =>
        match digitsThenMark '일' (r2.dropWhile isWs) with
        | some (da, r3) =>
          let r4 := r3.dropWhile isWs
          let w := r4.takeWhile (fun ch => !isWs ch)
          if w = [] then none else some ([a, b, c, d], mo, da, w)
        | none => none
      | none => none
    else none
  | _ => none

/-- Unanchored first-match search for the date regex (leftmost match wins). -/
def findDate : List Char → Option (List Char × List Char × List Char × List Char)
  | [] => none
  | c :: rest =>
    match matchDateAt (c :: rest) with
    | some g => some g
    | none => findDate rest

/-- Embeds `KakaoTalkParser.extractDate`: the normalized
year-month-day-weekday string when the date regex matches, the whole line
otherwise. -/
def extractDate (line : List Char) : List Char :=
  match findDate line with
  | some (y, mo, da, w) => y ++ '년' :: ' ' :: mo ++ '월' :: ' ' :: da ++ '일' :: ' ' :: w
  | none => line

/-- Matches a nonempty run of characters other than the closing bracket,
followed by the closing bracket; returns the run and the rest after it. -/
def bracketGroup (l : List Char) : Option (List Char × List Char) :=
  let grp := l.takeWhile (fun c => !(c = ']'))
  if grp = [] then none
  else
    match l.dropWhile (fun c => !(c = ']')) with
    | ']' :: r => some (grp, r)
    | _ => none

/-- The message-header regex `/^\[([^\]]+)\]\s*\[([^\]]+)\]\s*(.*)$/`,
returning the sender, time and content groups. -/
def matchMessageLine (l : List Char) : Option (List Char × List Char × List Char) :=
  match l with
  | '[' :: r1 =>
    match bracketGroup r1 with
    | some (sender, r2) =>
      match r2.dropWhile isWs with
      | '[' :: r3 =>
        match bracketGroup r3 with
        | some (time, r4) => some (sender, time, r4.dropWhile isWs)
        | none => none
      | _ => none
    | none => none
  | _ => none

/-- A parsed message object, as built by `parse`. -/
structure Message where
  sender : List Char
  time : List Char
  content : List Char
  date : List Char
  messageType : MsgKind
  raw : List Char
deriving DecidableEq, Repr

/-- One entry of `chatData.messages`: a date separator or a message. -/
inductive Event where
  | date (d : List Char) (raw : List Char)
  | message (m : Message)
deriving DecidableEq, Repr

/-- The `chatData` object of `KakaoTalkParser`. -/
structure ChatData where
  title : List Char
  saveDate : List Char
  messages : List Event
deriving DecidableEq, Repr

/-- The `chatData` value as initialized by the `KakaoTalkParser` constructor. -/
def initChat : ChatData := ⟨[], [], []⟩

/-- The loop state of one `parse` call: the `chatData` of the parser plus
the two locals `currentDate` and `currentMessage`. -/
structure PState where
  data : ChatData
  currentDate : List Char
  currentMessage : Option Message
deriving DecidableEq, Repr

/-- The events `if (currentMessage) push(currentMessage)` appends. -/
def flushEv : Option Message → List Event
  | none => []
  | some m => [Event.message m]

/-- Close the open message: push it to `messages` and clear it. -/
def flush (st : PState) : PState :=
  ⟨⟨st.data.title, st.data.saveDate, st.data.messages ++ flushEv st.currentMessage⟩,
   st.currentDate, none⟩

/-- The marker `님과 카카오톡 대화` — the title-line test (`includes`). -/
def titleMarker : List Char := "님과 카카오톡 대화".data

/-- The marker with a leading space — the pattern removed from the title line. -/
def titleMarkerSp : List Char := " 님과 카카오톡 대화".data

/-- The marker `저장한 날짜 :` — the save-date line test (`startsWith`). -/
def saveMarker : List Char := "저장한 날짜 :".data

/-- The marker with a trailing space — the pattern removed from the save-date
line. -/
def saveMarkerSp : List Char := "저장한 날짜 : ".data

/-- The 15-dash run a date separator is required to start with. -/
def dashRun : List Char := "---------------".data

/-- One iteration of the `parse` loop on one physical line, mirroring the
branch order of the source: blank line, title header, save-date header,
date separator, message header, continuation, discard. -/
def parseLine (st : PState) (rawLine : List Char) : PState :=
  let line := jsTrim rawLine
  if line = [] then
    match st.currentMessage with
    | some m =>
      ⟨st.data, st.currentDate,
        some { m with content := m.content ++ ['\n'], raw := m.raw ++ ['\n'] }⟩
    | none => st
  else if strIncludes titleMarker line = true then
    let st1 := flush st
    ⟨⟨replaceFirst titleMarkerSp [] line, st1.data.saveDate, st1.data.messages⟩,
     st1.currentDate, none⟩
  else if saveMarker.isPrefixOf line = true then
    let st1 := flush st
    ⟨⟨st1.data.title, replaceFirst saveMarkerSp [] line, st1.data.messages⟩,
     st1.currentDate, none⟩
  else if dashRun.isPrefixOf line = true ∧ strIncludes ['년'] line = true ∧
          strIncludes ['월'] line = true then
    let st1 := flush st
    let nd := extractDate line
    ⟨⟨st1.data.title, st1.data.saveDate, st1.data.messages ++ [Event.date nd line]⟩,
     nd, none⟩
  else
    match matchMessageLine line with
    | some (sender, time, content) =>
      let st1 := flush st
      ⟨st1.data, st1.currentDate,
        some ⟨jsTrim sender, jsTrim time, jsTrim content, st1.currentDate,
              detectMessageType (jsTrim content), line⟩⟩
    | none =>
      match st.currentMessage with
      | some m =>
        ⟨st.data, st.currentDate,
          some { m with
                 content := m.content ++ '\n' :: line,
                 raw := m.raw ++ '\n' :: line,
                 messageType := detectMessageType (m.content ++ '\n' :: line) }⟩
      | none => st

/-- The `for` loop of `parse` over all physical lines. -/
def parseLoop : PState → List (List Char) → PState
  | st, [] => st
  | st, l :: ls => parseLoop (parseLine st l) ls

/-- Embeds `KakaoTalkParser.parse`, as a function of the current `chatData`
of the parser (the method mutates and returns that field, so the state the
instance had before the call is part of the input). -/
def parse (cd : ChatData) (content : List Char) : ChatData :=
  (flush (parseLoop ⟨cd, [], none⟩ (splitNl content))).data

/-- The message events of `chatData.messages` (the filter on the message
type tag used by `getStats`). -/
def messageList (cd : ChatData) : List Message :=
  cd.messages.filterMap fun e =>
    match e with
    | .message m => some m
    | .date _ _ => none

def isMessageEv : Event → Bool
  | .message _ => true
  | .date _ _ => false

def isDateEv : Event → Bool
  | .date _ _ => true
  | .message _ => false

/-- Embeds the JavaScript Set spread: deduplicate keeping first-occurrence
order. -/
def uniqFirst {α : Type} [DecidableEq α] (seen : List α) : List α → List α
  | [] => []
  | a :: l => if a ∈ seen then uniqFirst seen l else a :: uniqFirst (a :: seen) l

/-- One count-and-percentage record of `getSenderStats`. -/
structure SenderStat where
  count : Nat
  percentage : Nat
deriving DecidableEq, Repr

/-- Embeds the rounding of the percentage on exact rationals: half-up
rounding of `100 * c / t`, i.e. the floor of `(200c + t) / 2t`. -/
def jsRound100 (c t : Nat) : Nat := (200 * c + t) / (2 * t)

/-- Embeds `KakaoTalkParser.getSenderStats`: one count-and-percentage entry
per sender, in sender-list order. -/
def getSenderStats (msgs : List Message) (senders : List (List Char)) :
    List (List Char × SenderStat) :=
  senders.map fun s =>
    let n := (msgs.filter (fun m => m.sender == s)).length
    (s, ⟨n, jsRound100 n msgs.length⟩)

/-- The object returned by `KakaoTalkParser.getStats`. -/
structure Stats where
  totalMessages : Nat
  totalDays : Nat
  participants : Nat
  senderStats : List (List Char × SenderStat)
deriving DecidableEq, Repr

/-- Embeds `KakaoTalkParser.getStats`, as a function of the `chatData` of
the parser. -/
def getStats (cd : ChatData) : Stats :=
  let msgs := messageList cd
  let senders := uniqFirst [] (msgs.map (·.sender))
  { totalMessages := msgs.length
    totalDays := (cd.messages.filter isDateEv).length
    participants := senders.length
    senderStats := getSenderStats msgs senders }

/-- Property access `stats[sender]` on the sender-stats object. -/
def lookupStat (s : List Char) : List (List Char × SenderStat) → Option SenderStat
  | [] => none
  | (k, v) :: rest => if k = s then some v else lookupStat s rest

/-- The title value after a list of lines has been processed: every line
containing the title marker overwrites it (so the last such line wins). -/
def foldTitle (ls : List (List Char)) (t : List Char) : List Char :=
  ls.foldl
    (fun a l =>
      if strIncludes titleMarker (jsTrim l) = true
      then replaceFirst titleMarkerSp [] (jsTrim l) else a) t

/-- The save-date value after a list of lines has been processed: every
line that starts with the save-date marker (and is not a title line)
overwrites it (so the last such line wins). -/
def foldSave (ls : List (List Char)) (sv : List Char) : List Char :=
  ls.foldl
    (fun a l =>
      if strIncludes titleMarker (jsTrim l) = false ∧ saveMarker.isPrefixOf (jsTrim l) = true
      then replaceFirst saveMarkerSp [] (jsTrim l) else a) sv

/-- Scanning an event list left to right while tracking the display text of
the most recent date marker (initially `d`), the date of every message equals the
tracked value — i.e. the date of the nearest preceding `DateMarker`, or the
initial value if none precedes it. -/
def datesConsistent (d : List Char) : List Event → Bool
  | [] => true
  | Event.date nd _ :: rest => datesConsistent nd rest
  | Event.message m :: rest => (m.date == d) && datesConsistent d rest

/-- The display text of the last date marker of the list (or `d` if none). -/
def lastDate (d : List Char) : List Event → List Char
  | [] => d
  | Event.date nd _ :: rest => lastDate nd rest
  | Event.message _ :: rest => lastDate d rest

/-- Invariant of the parse loop used for the date round-trip property. -/
def DatesInv (st : PState) : Prop :=
  datesConsistent [] st.data.messages = true ∧
  lastDate [] st.data.messages = st.currentDate ∧
  ∀ mm, st.currentMessage = some mm → mm.date = st.currentDate

/-- Invariant of the parse loop: the display text of every date event is
`extractDate` of its raw line. -/
def DateEvOk (st : PState) : Prop :=
  ∀ d r, Event.date d r ∈ st.data.messages → d = extractDate r

/-- Whether a string has the normalized date-marker form
`<year>년 <month>월 <day>일 <weekday>`: it parses under the date grammar
and equals the normalization of its own parse. -/
def isNormalizedDateForm (l : List Char) : Bool :=
  match findDate l with
  | some (y, mo, da, w) =>
    l == y ++ '년' :: ' ' :: mo ++ '월' :: ' ' :: da ++ '일' :: ' ' :: w
  | none => false

/-- A chat log with three messages from sender `A` and one from sender `B`
(the statistics example). -/
def exCd : ChatData :=
  ⟨[], [],
   [Event.message ⟨"A".data, "1:00".data, "m1".data, [], .text, []⟩,
    Event.message ⟨"A".data, "1:01".data, "m2".data, [], .text, []⟩,
    Event.message ⟨"A".data, "1:02".data, "m3".data, [], .text, []⟩,
    Event.message ⟨"B".data, "1:03".data, "m4".data, [], .text, []⟩]⟩

/-! ## Theorems -/

/-- C5 counterexample: a content string that starts with the emoticon
prefix, contains `http://` and ends in `.pdf` is classified `emoticon`,
not `link` — so "every content containing a URL and ending in a document
extension is classified `link`" fails as a universal statement. -/
theorem url_emoticon_counterexample :
    detectMessageType "이모티콘:http://a.pdf".data = .emoticon ∧
    strIncludes "http://".data "이모티콘:http://a.pdf".data = true ∧
    endsWithDocExt "이모티콘:http://a.pdf".data = true ∧
    ¬ MsgKind.emoticon = MsgKind.link := by
  refine ⟨by decide, by decide, by decide, by decide⟩

/-- C5 (amended): the classifier checks run in the documented order with
first-match-wins; any content containing `http://` or `https://` that is
not caught by the earlier emoticon-prefix rule is classified `link` (the
earlier exact-match rules cannot fire on content containing a URL), so in
particular such content is never classified `file`. -/
theorem url_content_classified_link (c : List Char)
    (h1 : strIncludes "http://".data c = true ∨ strIncludes "https://".data c = true)
    (h2 : ("이모티콘:".data).isPrefixOf c = false) :
    detectMessageType c = .link := by
  have hc : ¬ c = [] := by
    rintro rfl
    rcases h1 with h | h <;> exact absurd h (by decide)
  have hm : ¬(c = "사진".data ∨ c = "동영상".data ∨ c = "사진 여러 장".data) := by
    rintro (rfl | rfl | rfl) <;> rcases h1 with h | h <;> exact absurd h (by decide)
  have he : ¬(c = "이모티콘".data ∨ ("이모티콘:".data).isPrefixOf c = true) := by
    rintro (rfl | hp)
    · rcases h1 with h | h <;> exact absurd h (by decide)
    · rw [h2] at hp
      exact Bool.false_ne_true hp
  unfold detectMessageType
  rw [if_neg hc, if_neg hm, if_neg he, if_pos h1]

/-- Witness for `url_content_classified_link` at a concrete URL content. -/
theorem url_content_classified_link_witness :
    detectMessageType "https://example.com/a.pdf".data = .link :=
  url_content_classified_link "https://example.com/a.pdf".data
    (Or.inr (by decide)) (by decide)

/-- C7: `parse` is total — it is a function returning a `ChatData` for
every input; on the empty input and on a single line matching no pattern
it returns the empty log (empty title, empty save date, no events). -/
theorem parse_total_graceful :
    (∀ s : List Char, ∃ cl : ChatData, parse initChat s = cl) ∧
    parse initChat [] = initChat ∧
    parse initChat "문법에 맞지 않는 줄".data = initChat := by
  refine ⟨fun s => ⟨parse initChat s, rfl⟩, by decide, by decide⟩

/-- C1 counterexample: re-invoking `parse` on the same parser instance
does not yield the same events sequence — the second call appends a second
copy of the events to `chatData.messages`, so state is carried over. -/
theorem parse_reuse_counterexample :
    (parse initChat "[A] [1:00] hi".data).messages.length = 1 ∧
    (parse (parse initChat "[A] [1:00] hi".data) "[A] [1:00] hi".data).messages.length = 2 ∧
    ¬ (parse (parse initChat "[A] [1:00] hi".data) "[A] [1:00] hi".data).messages =
        (parse initChat "[A] [1:00] hi".data).messages := by
  refine ⟨by decide, by decide, by decide⟩

/-- C2 counterexample: a continuation line `"  world  "` with surrounding
whitespace is appended in trimmed form (`"\nworld"`), not as the raw
untrimmed line, because the loop trims every line before classification. -/
theorem continuation_raw_counterexample :
    (parse initChat "[A] [10:00] hi\n  world  ".data).messages =
      [Event.message ⟨"A".data, "10:00".data, "hi\nworld".data, [], .text,
        "[A] [10:00] hi\nworld".data⟩] ∧
    ¬ "hi\nworld".data = "hi\n  world  ".data := by
  refine ⟨by decide, by decide⟩

/-- C3 counterexample: a second title-header line overwrites the already
set title (the final title is `"B"`, from the later line, not `"A"` from
the first matching line). -/
theorem title_overwrite_counterexample :
    (parse initChat "A 님과 카카오톡 대화\nB 님과 카카오톡 대화".data).title = "B".data ∧
    ¬ "B".data = "A".data := by
  refine ⟨by decide, by decide⟩

/-- C4 counterexample: a separator framed by only three dashes, containing
both `년` and `월`, produces no event at all — `parse` requires the line
to start with fifteen dashes, so "any dash run, regardless of length"
fails. -/
theorem short_dash_counterexample :
    (parse initChat "--- 2025년 5월 20일 화요일 ---".data).messages = [] ∧
    strIncludes ['년'] (jsTrim "--- 2025년 5월 20일 화요일 ---".data) = true ∧
    strIncludes ['월'] (jsTrim "--- 2025년 5월 20일 화요일 ---".data) = true := by
  refine ⟨by decide, by decide, by decide⟩

/-- C9 counterexample: a recognized date-separator line whose embedded text
does not match the date grammar yields a `DateMarker` whose display text is
the raw line itself, which is not of the normalized
`<year>년 <month>월 <day>일 <weekday>` form. -/
theorem date_display_counterexample :
    (parse initChat "---------------년월".data).messages =
      [Event.date "---------------년월".data "---------------년월".data] ∧
    isNormalizedDateForm "---------------년월".data = false := by
  refine ⟨by decide, by decide⟩

/-- C2 (amended): a physical line that is nonblank after trimming and
matches neither the title header, the save-date header, the date separator
nor the message pattern, while a message is open, is appended to the open
message as a newline plus the trimmed line, and the kind of the open message is
recomputed by the classifier on the resulting full content. -/
theorem continuation_appends_trimmed_line (st : PState) (raw : List Char) (m : Message)
    (h1 : st.currentMessage = some m)
    (h2 : ¬ jsTrim raw = [])
    (h3 : strIncludes titleMarker (jsTrim raw) = false)
    (h4 : saveMarker.isPrefixOf (jsTrim raw) = false)
    (h5 : ¬(dashRun.isPrefixOf (jsTrim raw) = true ∧ strIncludes ['년'] (jsTrim raw) = true ∧
            strIncludes ['월'] (jsTrim raw) = true))
    (h6 : matchMessageLine (jsTrim raw) = none) :
    parseLine st raw =
      ⟨st.data, st.currentDate,
        some { m with
               content := m.content ++ '\n' :: jsTrim raw,
               raw := m.raw ++ '\n' :: jsTrim raw,
               messageType := detectMessageType (m.content ++ '\n' :: jsTrim raw) }⟩ := by
  unfold parseLine
  simp only [h1, h6]
  rw [if_neg h2, if_neg (by simp [h3]), if_neg (by simp [h4]), if_neg h5]

/-- Witness for `continuation_appends_trimmed_line`: the line `"  world  "`
is appended to an open `"hi"` message as `"\nworld"`. -/
theorem continuation_appends_trimmed_line_witness :
    parseLine ⟨initChat, [], some ⟨"A".data, "10:00".data, "hi".data, [], .text,
        "[A] [10:00] hi".data⟩⟩ "  world  ".data =
      ⟨initChat, [],
        some ⟨"A".data, "10:00".data, "hi\nworld".data, [], .text,
          "[A] [10:00] hi\nworld".data⟩⟩ := by
  rw [continuation_appends_trimmed_line _ _
    (⟨"A".data, "10:00".data, "hi".data, [], .text, "[A] [10:00] hi".data⟩ : Message)
    rfl (by decide) (by decide) (by decide) (by decide) (by decide)]
  decide

/-- C4 (amended): a trimmed line that starts with fifteen dashes and
contains both `년` and `월` (and is neither a title nor a save-date
header) closes any open message, appends a `DateMarker` event carrying
`extractDate` of the line, and sets the current date to that value. -/
theorem date_separator_fifteen_dashes (st : PState) (raw : List Char)
    (h1 : strIncludes titleMarker (jsTrim raw) = false)
    (h2 : saveMarker.isPrefixOf (jsTrim raw) = false)
    (h3 : dashRun.isPrefixOf (jsTrim raw) = true)
    (h4 : strIncludes ['년'] (jsTrim raw) = true)
    (h5 : strIncludes ['월'] (jsTrim raw) = true) :
    parseLine st raw =
      ⟨⟨st.data.title, st.data.saveDate,
        (st.data.messages ++ flushEv st.currentMessage) ++
          [Event.date (extractDate (jsTrim raw)) (jsTrim raw)]⟩,
       extractDate (jsTrim raw), none⟩ := by
  have hne : ¬ jsTrim raw = [] := by
    intro h
    rw [h] at h3
    exact absurd h3 (by decide)
  unfold parseLine
  rw [if_neg hne, if_neg (by simp [h1]), if_neg (by simp [h2]), if_pos ⟨h3, h4, h5⟩]
  rfl

/-- Witness for `date_separator_fifteen_dashes` at the example
separator line, with an open message that gets closed. -/
theorem date_separator_fifteen_dashes_witness :
    parseLine ⟨initChat, [], some ⟨"A".data, "1:00".data, "hi".data, [], .text,
        "[A] [1:00] hi".data⟩⟩
      "--------------- 2025년 5월 20일 화요일 ---------------".data =
      ⟨⟨[], [],
        [Event.message ⟨"A".data, "1:00".data, "hi".data, [], .text, "[A] [1:00] hi".data⟩,
         Event.date "2025년 5월 20일 화요일".data
           "--------------- 2025년 5월 20일 화요일 ---------------".data]⟩,
       "2025년 5월 20일 화요일".data, none⟩ := by
  rw [date_separator_fifteen_dashes _ _ (by decide) (by decide) (by decide) (by decide)
    (by decide)]
  decide

/-- One parse-loop step decomposed: the title and save-date updates depend
only on the line, and the event list grows by events that do not depend on
the `chatData` fields carried in from before. -/
theorem parseLine_decomp (t sv : List Char) (ms : List Event) (d : List Char)
    (m : Option Message) (l : List Char) :
    parseLine ⟨⟨t, sv, ms⟩, d, m⟩ l =
      ⟨⟨(if strIncludes titleMarker (jsTrim l) = true
         then replaceFirst titleMarkerSp [] (jsTrim l) else t),
        (if strIncludes titleMarker (jsTrim l) = false ∧ saveMarker.isPrefixOf (jsTrim l) = true
         then replaceFirst saveMarkerSp [] (jsTrim l) else sv),
        ms ++ (parseLine ⟨⟨[], [], []⟩, d, m⟩ l).data.messages⟩,
       (parseLine ⟨⟨[], [], []⟩, d, m⟩ l).currentDate,
       (parseLine ⟨⟨[], [], []⟩, d, m⟩ l).currentMessage⟩ := by
  have e1 : strIncludes titleMarker [] = false := by decide
  have e2 : saveMarker.isPrefixOf ([] : List Char) = false := by decide
  unfold parseLine
  by_cases hb : jsTrim l = []
  · rw [hb]
    cases m <;> simp [e1, e2]
  · rw [if_neg hb, if_neg hb]
    by_cases ht : strIncludes titleMarker (jsTrim l) = true
    · simp [ht, flush]
    · rw [if_neg ht, if_neg ht]
      have ht' : strIncludes titleMarker (jsTrim l) = false := by
        cases h : strIncludes titleMarker (jsTrim l)
        · rfl
        · exact absurd h ht
      by_cases hs : saveMarker.isPrefixOf (jsTrim l) = true
      · simp [ht, ht', hs, flush]
      · rw [if_neg hs, if_neg hs]
        by_cases hd : dashRun.isPrefixOf (jsTrim l) = true ∧
            strIncludes ['년'] (jsTrim l) = true ∧ strIncludes ['월'] (jsTrim l) = true
        · simp [ht, ht', hs, hd, flush]
        · rw [if_neg hd, if_neg hd]
          cases hm : matchMessageLine (jsTrim l) with
          | some g =>
            obtain ⟨sd, tm, ct⟩ := g
            simp [ht, ht', hs, flush]
          | none =>
            cases m <;> simp [ht, ht', hs]

/-- The whole parse loop decomposed: the final title and save-date are the
header folds over the lines, and the events produced are appended after
whatever events were already in `chatData.messages`; none of the loop
behaviour depends on the carried-in `chatData` fields. -/
theorem parseLoop_decomp (ls : List (List Char)) :
    ∀ (t sv : List Char) (ms : List Event) (d : List Char) (m : Option Message),
    parseLoop ⟨⟨t, sv, ms⟩, d, m⟩ ls =
      ⟨⟨foldTitle ls t, foldSave ls sv,
        ms ++ (parseLoop ⟨⟨[], [], []⟩, d, m⟩ ls).data.messages⟩,
       (parseLoop ⟨⟨[], [], []⟩, d, m⟩ ls).currentDate,
       (parseLoop ⟨⟨[], [], []⟩, d, m⟩ ls).currentMessage⟩ := by
  induction ls with
  | nil => intro t sv ms d m; simp [parseLoop, foldTitle, foldSave]
  | cons l ls ih =>
    intro t sv ms d m
    show parseLoop (parseLine ⟨⟨t, sv, ms⟩, d, m⟩ l) ls = _
    rw [parseLine_decomp]
    rw [ih]
    conv_rhs =>
      rw [show parseLoop ⟨⟨[], [], []⟩, d, m⟩ (l :: ls) =
        parseLoop (parseLine ⟨⟨[], [], []⟩, d, m⟩ l) ls from rfl]
      rw [parseLine_decomp, ih]
    simp [foldTitle, foldSave, List.append_assoc]

/-- C1 (amended): `parse` is a pure function of the parser state and the
input text, so two invocations on fresh parsers over identical text yield
structurally identical results; but an invocation on an already-used parser
carries state over: its events are the previous events followed by the
events a fresh parse of the text would produce. -/
theorem parse_reuse_appends (cd : ChatData) (s : List Char) :
    (parse cd s).messages = cd.messages ++ (parse initChat s).messages := by
  obtain ⟨t, sv, ms⟩ := cd
  show (flush (parseLoop ⟨⟨t, sv, ms⟩, [], none⟩ (splitNl s))).data.messages = _
  rw [parseLoop_decomp]
  show _ = ms ++ (flush (parseLoop ⟨⟨[], [], []⟩, [], none⟩ (splitNl s))).data.messages
  simp [flush, List.append_assoc]

/-- C3 (amended): `title` and `saveDate` are plain assignments, so each is
overwritten by every matching header line: the final value comes from the
last matching header line of the input, not the first. -/
theorem header_last_wins (cd : ChatData) (s : List Char) :
    (parse cd s).title = foldTitle (splitNl s) cd.title ∧
    (parse cd s).saveDate = foldSave (splitNl s) cd.saveDate := by
  obtain ⟨t, sv, ms⟩ := cd
  constructor
  · show (flush (parseLoop ⟨⟨t, sv, ms⟩, [], none⟩ (splitNl s))).data.title = _
    rw [parseLoop_decomp]
    rfl
  · show (flush (parseLoop ⟨⟨t, sv, ms⟩, [], none⟩ (splitNl s))).data.saveDate = _
    rw [parseLoop_decomp]
    rfl

/-- Every parse-loop step has one of five shapes: no change; an update of
the open message that keeps its date; a flush that closes the open message
(title or save-date header); a flush followed by a date-marker append that
sets the current date; or a flush followed by opening a new message dated
with the current date. -/
theorem parseLine_shape (st : PState) (l : List Char) :
    parseLine st l = st ∨
    (∃ mm mm', st.currentMessage = some mm ∧ mm'.date = mm.date ∧
      parseLine st l = ⟨st.data, st.currentDate, some mm'⟩) ∨
    (∃ t' sv', parseLine st l =
      ⟨⟨t', sv', st.data.messages ++ flushEv st.currentMessage⟩, st.currentDate, none⟩) ∨
    (∃ r, parseLine st l =
      ⟨⟨st.data.title, st.data.saveDate,
        (st.data.messages ++ flushEv st.currentMessage) ++ [Event.date (extractDate r) r]⟩,
       extractDate r, none⟩) ∨
    (∃ mm', mm'.date = st.currentDate ∧
      parseLine st l = ⟨⟨st.data.title, st.data.saveDate,
        st.data.messages ++ flushEv st.currentMessage⟩, st.currentDate, some mm'⟩) := by
  unfold parseLine
  by_cases hb : jsTrim l = []
  · rw [if_pos hb]
    cases hcm : st.currentMessage with
    | none => exact Or.inl rfl
    | some mm =>
      exact Or.inr (Or.inl ⟨mm,
        { mm with content := mm.content ++ ['\n'], raw := mm.raw ++ ['\n'] },
        rfl, rfl, rfl⟩)
  · rw [if_neg hb]
    by_cases ht : strIncludes titleMarker (jsTrim l) = true
    · rw [if_pos ht]
      exact Or.inr (Or.inr (Or.inl ⟨_, _, rfl⟩))
    · rw [if_neg ht]
      by_cases hs : saveMarker.isPrefixOf (jsTrim l) = true
      · rw [if_pos hs]
        exact Or.inr (Or.inr (Or.inl ⟨_, _, rfl⟩))
      · rw [if_neg hs]
        by_cases hd : dashRun.isPrefixOf (jsTrim l) = true ∧
            strIncludes ['년'] (jsTrim l) = true ∧ strIncludes ['월'] (jsTrim l) = true
        · rw [if_pos hd]
          exact Or.inr (Or.inr (Or.inr (Or.inl ⟨jsTrim l, rfl⟩)))
        · rw [if_neg hd]
          cases hmm : matchMessageLine (jsTrim l) with
          | some g =>
            obtain ⟨sd, tm, ct⟩ := g
            exact Or.inr (Or.inr (Or.inr (Or.inr ⟨_, rfl, rfl⟩)))
          | none =>
            cases hcm : st.currentMessage with
            | none => exact Or.inl rfl
            | some mm =>
              exact Or.inr (Or.inl ⟨mm,
                { mm with content := mm.content ++ '\n' :: jsTrim l,
                          raw := mm.raw ++ '\n' :: jsTrim l,
                          messageType := detectMessageType (mm.content ++ '\n' :: jsTrim l) },
                rfl, rfl, rfl⟩)

/-- Appending a message event at the end: the list stays consistent iff it
was and the date of the new message is the date tracked at the end. -/
theorem datesConsistent_append_message (xs : List Event) (m : Message) :
    ∀ d, datesConsistent d (xs ++ [Event.message m]) =
      (datesConsistent d xs && (m.date == lastDate d xs)) := by
  induction xs with
  | nil => intro d; simp [datesConsistent, lastDate]
  | cons e xs ih => intro d; cases e <;> simp [datesConsistent, lastDate, ih, Bool.and_assoc]

/-- Appending a date event at the end preserves consistency. -/
theorem datesConsistent_append_date (xs : List Event) (nd r : List Char) :
    ∀ d, datesConsistent d (xs ++ [Event.date nd r]) = datesConsistent d xs := by
  induction xs with
  | nil => intro d; simp [datesConsistent]
  | cons e xs ih => intro d; cases e <;> simp [datesConsistent, ih]

theorem lastDate_append_message (xs : List Event) (m : Message) :
    ∀ d, lastDate d (xs ++ [Event.message m]) = lastDate d xs := by
  induction xs with
  | nil => intro d; simp [lastDate]
  | cons e xs ih => intro d; cases e <;> simp [lastDate, ih]

theorem lastDate_append_date (xs : List Event) (nd r : List Char) :
    ∀ d, lastDate d (xs ++ [Event.date nd r]) = nd := by
  induction xs with
  | nil => intro d; simp [lastDate]
  | cons e xs ih => intro d; cases e <;> simp [lastDate, ih]

/-- Closing the open message keeps the event list date-consistent and does
not move the tracked date. -/
theorem flush_messages_dates (st : PState)
    (h1 : datesConsistent [] st.data.messages = true)
    (h2 : lastDate [] st.data.messages = st.currentDate)
    (h3 : ∀ mm, st.currentMessage = some mm → mm.date = st.currentDate) :
    datesConsistent [] (st.data.messages ++ flushEv st.currentMessage) = true ∧
    lastDate [] (st.data.messages ++ flushEv st.currentMessage) = st.currentDate := by
  cases hcm : st.currentMessage with
  | none => simpa [flushEv] using ⟨h1, h2⟩
  | some mm =>
    constructor
    · rw [flushEv, datesConsistent_append_message, h1, h2, h3 mm hcm]
      simp
    · rw [flushEv, lastDate_append_message]
      exact h2

/-- The parse-loop step preserves the date-consistency invariant. -/
theorem parseLine_datesInv (st : PState) (l : List Char) (h : DatesInv st) :
    DatesInv (parseLine st l) := by
  obtain ⟨h1, h2, h3⟩ := h
  have hf := flush_messages_dates st h1 h2 h3
  rcases parseLine_shape st l with heq | ⟨mm, mm', hcm, hdt, heq⟩ | ⟨t', sv', heq⟩ |
    ⟨r, heq⟩ | ⟨mm', hdt, heq⟩ <;> rw [heq]
  · exact ⟨h1, h2, h3⟩
  · refine ⟨h1, h2, fun x hx => ?_⟩
    have hx' : x = mm' := (Option.some.inj hx).symm
    rw [hx', hdt]
    exact h3 mm hcm
  · exact ⟨hf.1, hf.2, fun x hx => Option.noConfusion hx⟩
  · refine ⟨?_, ?_, fun x hx => Option.noConfusion hx⟩
    · rw [show (⟨⟨st.data.title, st.data.saveDate,
          (st.data.messages ++ flushEv st.currentMessage) ++ [Event.date (extractDate r) r]⟩,
          extractDate r, none⟩ : PState).data.messages =
          (st.data.messages ++ flushEv st.currentMessage) ++ [Event.date (extractDate r) r]
          from rfl]
      rw [datesConsistent_append_date]
      exact hf.1
    · exact lastDate_append_date _ _ _ []
  · refine ⟨hf.1, hf.2, fun x hx => ?_⟩
    have hx' : x = mm' := (Option.some.inj hx).symm
    rw [hx', hdt]

/-- The whole parse loop preserves the date-consistency invariant. -/
theorem parseLoop_datesInv (ls : List (List Char)) :
    ∀ st, DatesInv st → DatesInv (parseLoop st ls) := by
  induction ls with
  | nil => intro st h; exact h
  | cons l ls ih => intro st h; exact ih _ (parseLine_datesInv st l h)

/-- C6: in the events of a fresh parse, the date of every message equals the
display text of the nearest preceding date marker, or the empty string if
no date marker precedes it (`datesConsistent` scans the sequence tracking
exactly that value, starting from the empty string). -/
theorem message_date_nearest_marker (s : List Char) :
    datesConsistent [] (parse initChat s).messages = true := by
  have h0 : DatesInv ⟨initChat, [], none⟩ :=
    ⟨rfl, rfl, fun mm h => Option.noConfusion h⟩
  obtain ⟨a, b, c⟩ := parseLoop_datesInv (splitNl s) _ h0
  exact (flush_messages_dates _ a b c).1

/-- A date event never comes from flushing the open message. -/
theorem date_not_in_flushEv (d r : List Char) (cm : Option Message) :
    Event.date d r ∈ flushEv cm → False := by
  cases cm <;> simp [flushEv]

/-- The parse-loop step preserves the property that the display text of
every date event is `extractDate` of its raw line. -/
theorem parseLine_dateEvOk (st : PState) (l : List Char) (h : DateEvOk st) :
    DateEvOk (parseLine st l) := by
  rcases parseLine_shape st l with heq | ⟨mm, mm', hcm, hdt, heq⟩ | ⟨t', sv', heq⟩ |
    ⟨r, heq⟩ | ⟨mm', hdt, heq⟩ <;> rw [heq] <;> intro d rr hmem
  · exact h d rr hmem
  · exact h d rr hmem
  · rcases List.mem_append.mp hmem with hm | hm
    · exact h d rr hm
    · exact absurd hm (fun hx => date_not_in_flushEv d rr _ hx)
  · rcases List.mem_append.mp hmem with hm | hm
    · rcases List.mem_append.mp hm with hm2 | hm2
      · exact h d rr hm2
      · exact absurd hm2 (fun hx => date_not_in_flushEv d rr _ hx)
    · have he : Event.date d rr = Event.date (extractDate r) r := List.mem_singleton.mp hm
      injection he with he1 he2
      rw [he1, he2]
  · rcases List.mem_append.mp hmem with hm | hm
    · exact h d rr hm
    · exact absurd hm (fun hx => date_not_in_flushEv d rr _ hx)

/-- The whole parse loop preserves the date-event property. -/
theorem parseLoop_dateEvOk (ls : List (List Char)) :
    ∀ st, DateEvOk st → DateEvOk (parseLoop st ls) := by
  induction ls with
  | nil => intro st h; exact h
  | cons l ls ih => intro st h; exact ih _ (parseLine_dateEvOk st l h)

/-- C9 (amended): for every `DateMarker` event of a fresh parse, if the
date grammar matches its raw separator line, the display text is the
normalized `<year>년 <month>월 <day>일 <weekday>` string built from the
captured groups; if the grammar does not match, the display text is the
raw (trimmed) separator line itself. -/
theorem date_marker_display_text (s d r : List Char)
    (h : Event.date d r ∈ (parse initChat s).messages) :
    match findDate r with
    | some (y, mo, da, w) =>
      d = y ++ '년' :: ' ' :: mo ++ '월' :: ' ' :: da ++ '일' :: ' ' :: w
    | none => d = r := by
  have h0 : DateEvOk ⟨initChat, [], none⟩ := fun d r hm => absurd hm (List.not_mem_nil _)
  have h1 := parseLoop_dateEvOk (splitNl s) _ h0
  have hedr : d = extractDate r := by
    rcases List.mem_append.mp h with hm | hm
    · exact h1 d r hm
    · exact absurd hm (fun hx => date_not_in_flushEv d r _ hx)
  unfold extractDate at hedr
  cases hf : findDate r with
  | some g =>
    obtain ⟨y, mo, da, w⟩ := g
    rw [hf] at hedr
    simpa [hf] using hedr
  | none =>
    rw [hf] at hedr
    simpa [hf] using hedr

/-- Witness for `date_marker_display_text` at the example separator
line. -/
theorem date_marker_display_text_witness :
    (match findDate "--------------- 2025년 5월 20일 화요일 ---------------".data with
     | some (y, mo, da, w) =>
       "2025년 5월 20일 화요일".data =
         y ++ '년' :: ' ' :: mo ++ '월' :: ' ' :: da ++ '일' :: ' ' :: w
     | none =>
       "2025년 5월 20일 화요일".data =
         "--------------- 2025년 5월 20일 화요일 ---------------".data) :=
  date_marker_display_text
    "--------------- 2025년 5월 20일 화요일 ---------------".data
    "2025년 5월 20일 화요일".data
    "--------------- 2025년 5월 20일 화요일 ---------------".data
    (by decide)

/-- Filtering the message events and projecting to the message objects
keeps one element per message event. -/
theorem messageList_length (evs : List Event) :
    (evs.filterMap fun e => match e with
      | Event.message m => some m
      | Event.date _ _ => none).length = (evs.filter isMessageEv).length := by
  induction evs with
  | nil => rfl
  | cons e evs ih => cases e <;> simp [List.filterMap_cons, List.filter_cons, isMessageEv, ih]

/-- Membership in the set-deduplicated list. -/
theorem mem_uniqFirst {α : Type} [DecidableEq α] (l : List α) :
    ∀ (seen : List α) (x : α), x ∈ uniqFirst seen l ↔ (x ∈ l ∧ ¬ x ∈ seen) := by
  induction l with
  | nil => intro seen x; simp [uniqFirst]
  | cons a l ih =>
    intro seen x
    by_cases ha : a ∈ seen
    · rw [uniqFirst, if_pos ha, ih, List.mem_cons]
      constructor
      · rintro ⟨hl, hs⟩
        exact ⟨Or.inr hl, hs⟩
      · rintro ⟨rfl | hl, hs⟩
        · exact absurd ha hs
        · exact ⟨hl, hs⟩
    · rw [uniqFirst, if_neg ha]
      simp only [List.mem_cons, ih]
      constructor
      · rintro (rfl | ⟨hl, hs⟩)
        · exact ⟨Or.inl rfl, ha⟩
        · exact ⟨Or.inr hl, fun hx => hs (Or.inr hx)⟩
      · rintro ⟨rfl | hl, hs⟩
        · exact Or.inl rfl
        · by_cases hxa : x = a
          · exact Or.inl hxa
          · exact Or.inr ⟨hl, fun hx => hx.elim hxa hs⟩

/-- The set-deduplicated list has no duplicates. -/
theorem uniqFirst_nodup {α : Type} [DecidableEq α] (l : List α) :
    ∀ seen : List α, (uniqFirst seen l).Nodup := by
  induction l with
  | nil => intro seen; simp [uniqFirst]
  | cons a l ih =>
    intro seen
    by_cases ha : a ∈ seen
    · rw [uniqFirst, if_pos ha]
      exact ih seen
    · rw [uniqFirst, if_neg ha]
      refine List.nodup_cons.mpr ⟨fun hx => ?_, ih (a :: seen)⟩
      exact ((mem_uniqFirst l (a :: seen) a).mp hx).2 (List.mem_cons_self a seen)

/-- The number of elements of the set-deduplicated list is the number of
distinct elements of the original list. -/
theorem uniqFirst_length (l : List (List Char)) :
    (uniqFirst [] l).length = l.toFinset.card := by
  have h1 : (uniqFirst ([] : List (List Char)) l).toFinset = l.toFinset := by
    ext x
    simp [List.mem_toFinset, mem_uniqFirst]
  rw [← List.toFinset_card_of_nodup (uniqFirst_nodup l []), h1]

/-- Looking up any listed sender in the sender-stats object yields its
message count and exact percentage. -/
theorem lookup_senderStats (msgs : List Message) :
    ∀ (senders : List (List Char)) (s : List Char), s ∈ senders →
      lookupStat s (getSenderStats msgs senders) =
        some ⟨(msgs.filter (fun m => m.sender == s)).length,
              jsRound100 (msgs.filter (fun m => m.sender == s)).length msgs.length⟩ := by
  intro senders
  induction senders with
  | nil => intro s hs; exact absurd hs (List.not_mem_nil s)
  | cons k rest ih =>
    intro s hs
    rw [getSenderStats, List.map_cons]
    show (if k = s then _ else _) = _
    by_cases hk : k = s
    · rw [if_pos hk, hk]
    · rw [if_neg hk]
      rcases List.mem_cons.mp hs with h1 | h1
      · exact absurd h1.symm hk
      · exact ih s h1

/-- C8: `getStats` reports the number of message events as
`totalMessages`, the number of date-marker events as `totalDays`, the
number of distinct senders as `participants`, and for every sender of a
message an entry whose count is the number of messages of that sender and whose
percentage is the half-up rounding of `100 * count / totalMessages`. -/
theorem getStats_correct (cd : ChatData) :
    (getStats cd).totalMessages = (cd.messages.filter isMessageEv).length ∧
    (getStats cd).totalDays = (cd.messages.filter isDateEv).length ∧
    (getStats cd).participants = ((messageList cd).map (·.sender)).toFinset.card ∧
    ∀ s, s ∈ (messageList cd).map (·.sender) →
      lookupStat s (getStats cd).senderStats =
        some ⟨((messageList cd).filter (fun m => m.sender == s)).length,
              jsRound100 ((messageList cd).filter (fun m => m.sender == s)).length
                (messageList cd).length⟩ := by
  refine ⟨?_, rfl, ?_, ?_⟩
  · exact messageList_length cd.messages
  · exact uniqFirst_length _
  · intro s hs
    exact lookup_senderStats (messageList cd) _ s
      ((mem_uniqFirst _ [] s).mpr ⟨hs, List.not_mem_nil s⟩)

/-- Witness for `getStats_correct`: with three messages from `A` and one
from `B`, totals are 4 messages, `A ↦ {count 3, percentage 75}` and
`B ↦ {count 1, percentage 25}`. -/
theorem getStats_correct_witness :
    (getStats exCd).totalMessages = 4 ∧
    (getStats exCd).participants = 2 ∧
    lookupStat "A".data (getStats exCd).senderStats = some ⟨3, 75⟩ ∧
    lookupStat "B".data (getStats exCd).senderStats = some ⟨1, 25⟩ := by
  refine ⟨by decide, by decide, ?_, ?_⟩
  · rw [(getStats_correct exCd).2.2.2 "A".data (by decide)]
    decide
  · rw [(getStats_correct exCd).2.2.2 "B".data (by decide)]
    decide

/-- C10: on a chat log containing no message events at all, `getStats`
reports zero messages, zero participants and an empty sender-stats
object — no per-sender percentage (hence no division by the zero message
total) is computed. -/
theorem getStats_no_messages (cd : ChatData)
    (h : ∀ e ∈ cd.messages, isMessageEv e = false) :
    (getStats cd).totalMessages = 0 ∧
    (getStats cd).participants = 0 ∧
    (getStats cd).senderStats = [] := by
  have hnil : messageList cd = [] := by
    rw [messageList, List.filterMap_eq_nil_iff]
    intro e he
    have := h e he
    cases e with
    | date d r => rfl
    | message m => exact absurd this (by simp [isMessageEv])
  refine ⟨?_, ?_, ?_⟩ <;> rw [getStats] <;> simp [hnil, uniqFirst, getSenderStats]

/-- Witness for `getStats_no_messages`: parsing the empty input yields a
log with no message events, on which `getStats` reports all-zero values. -/
theorem getStats_no_messages_witness :
    (∀ e ∈ (parse initChat []).messages, isMessageEv e = false) ∧
    (getStats (parse initChat [])).totalMessages = 0 ∧
    (getStats (parse initChat [])).participants = 0 ∧
    (getStats (parse initChat [])).senderStats = [] := by
  have h : ∀ e ∈ (parse initChat []).messages, isMessageEv e = false := by decide
  have hc := getStats_no_messages (parse initChat []) h
  exact ⟨h, hc.1, hc.2.1, hc.2.2⟩

end KakaoViewer

